import Mathlib

/-!
Verification development for a small bulletin-board service (actix-web +
sqlx, `src/main.rs`).  The submission pipeline (`submit_article`), the
comment flow (`submit_comment`) and the listing query (`list_articles`)
are shallowly embedded as pure Lean functions over explicit state:

* the multipart payload is a list of parts, each part a named chunk
  stream in which any item may be a stream error (actix yields
  `Result<_, Error>` items; the handler propagates the first error
  with `?`);
* the filesystem is an association list from path to byte content;
* the database is a record of article, media and comment rows, and
  every database write is also recorded in an event trace so that
  ordering claims (article insert before media inserts, comment insert
  before bump update) are expressible;
* `Utc::now().timestamp()` readings are passed in as explicit `Int`
  parameters;
* database inserts and updates themselves are modelled as succeeding
  (their failure paths in the code only log and return a generic
  server error, and are environmental, not algorithmic).

Characters are Unicode scalar values (Lean `Char` = Rust `char`),
strings are `List Char`, raw bytes are `List Nat`.
-/

abbrev Str := List Char

abbrev Bytes := List Nat

/-! ## The sanitizer (`sanitize_filename::sanitize`, default options)

The `sanitize` dependency (v0.5, default `Options`: `windows =
cfg!(windows)` — modelled for a non-Windows host, `truncate = true`,
`replacement = ""`) applies, in order: removal of the characters matching
`[/\?<>\\:\*\|"]`, removal of the characters matching `[\x00-\x1f\x80-\x9f]`,
replacement of a name consisting only of dots (`^\.+$`) by the empty
string, and truncation to at most 255 UTF-8 bytes at a character
boundary. -/

def isIllegalChar (c : Char) : Bool :=
  c = '/' || c = '?' || c = '<' || c = '>' || c = '\\' || c = ':' || c = '*' || c = '|' || c = '"'

def isControlChar (c : Char) : Bool :=
  c.toNat ≤ 0x1f || (0x80 ≤ c.toNat && c.toNat ≤ 0x9f)

def removeIllegal (s : Str) : Str := s.filter (fun c => !isIllegalChar c)

def removeControl (s : Str) : Str := s.filter (fun c => !isControlChar c)

def replaceReserved (s : Str) : Str :=
  if s ≠ [] ∧ s.all (fun c => c = '.') then [] else s

/-- Rust `char::len_utf8`. -/
def lenUtf8 (c : Char) : Nat :=
  if c.toNat < 0x80 then 1
  else if c.toNat < 0x800 then 2
  else if c.toNat < 0x10000 then 3
  else 4

/-- Greedy truncation to at most `n` UTF-8 bytes at a character boundary,
as the crate's final `truncate` step performs on the byte length 255. -/
def truncBytes : Nat → Str → Str
  | _, [] => []
  | n, c :: rest => if lenUtf8 c ≤ n then c :: truncBytes (n - lenUtf8 c) rest else []

def sanitize (name : Str) : Str :=
  truncBytes 255 (replaceReserved (removeControl (removeIllegal name)))

/-! ## Paths

`submit_article` writes the file at `./uploads/article_<sanitized>` and
stores the public path `/uploads/article_<sanitized>` in the database. -/

def filePathOf (s : Str) : Str := "./uploads/article_".toList ++ s

def publicPathOf (s : Str) : Str := "/uploads/article_".toList ++ s

/-! ## Path confinement

`splitOnSlash` splits a path on `/`; `resolvePath` interprets the
component list with a stack, skipping empty and `.` components, popping
on `..` (escaping the root when the stack is empty), pushing everything
else.  A path is confined to the upload root when it resolves, without
escaping, to `uploads` followed by at least one further component. -/

def splitGo (cur : Str) : Str → List Str
  | [] => [cur.reverse]
  | c :: rest => if c = '/' then cur.reverse :: splitGo [] rest else splitGo (c :: cur) rest

def splitOnSlash (s : Str) : List Str := splitGo [] s

def resolvePath (stack : List Str) : List Str → Option (List Str)
  | [] => some stack.reverse
  | c :: rest =>
    if c = [] ∨ c = ['.'] then resolvePath stack rest
    else if c = ['.', '.'] then
      match stack with
      | [] => none
      | _ :: s => resolvePath s rest
    else resolvePath (c :: stack) rest

def confinedToUploads (p : Str) : Bool :=
  match resolvePath [] (splitOnSlash p) with
  | some (u :: rest) => u = "uploads".toList && !rest.isEmpty
  | _ => false

/-! ## UTF-8 decoding (`String::from_utf8`)

A strict decoder of well-formed UTF-8: rejects stray continuation bytes,
overlong encodings, surrogates and code points above U+10FFFF, exactly
as `String::from_utf8` does.  `decodeText` is
`String::from_utf8(value).unwrap_or_default()`. -/

def isCont (b : Nat) : Bool := 0x80 ≤ b && b < 0xC0

def contVal (b : Nat) : Nat := b - 0x80

def decodeUtf8 : Bytes → Option Str
  | [] => some []
  | b :: rest =>
    if b < 0x80 then (decodeUtf8 rest).map (fun cs => Char.ofNat b :: cs)
    else if b < 0xC2 then none
    else if b < 0xE0 then
      match rest with
      | b1 :: rest1 =>
        if isCont b1 then
          (decodeUtf8 rest1).map (fun cs => Char.ofNat ((b - 0xC0) * 64 + contVal b1) :: cs)
        else none
      | [] => none
    else if b < 0xF0 then
      match rest with
      | b1 :: b2 :: rest2 =>
        let lo1 := if b = 0xE0 then 0xA0 else 0x80
        let hi1 := if b = 0xED then 0x9F else 0xBF
        if lo1 ≤ b1 && b1 ≤ hi1 && isCont b2 then
          (decodeUtf8 rest2).map (fun cs =>
            Char.ofNat ((b - 0xE0) * 4096 + contVal b1 * 64 + contVal b2) :: cs)
        else none
      | _ => none
    else if b < 0xF5 then
      match rest with
      | b1 :: b2 :: b3 :: rest3 =>
        let lo1 := if b = 0xF0 then 0x90 else 0x80
        let hi1 := if b = 0xF4 then 0x8F else 0xBF
        if lo1 ≤ b1 && b1 ≤ hi1 && isCont b2 && isCont b3 then
          (decodeUtf8 rest3).map (fun cs =>
            Char.ofNat ((b - 0xF0) * 262144 + contVal b1 * 4096 + contVal b2 * 64 + contVal b3) :: cs)
        else none
      | _ => none
    else none

def decodeText (bytes : Bytes) : Str := (decodeUtf8 bytes).getD []

/-! ## Filesystem

An association list from path to byte content, newest entry first
(`fsSet` shadows).  `File::create` is create-or-truncate: it succeeds
whether or not the path exists and resets the content to empty.
`fsAppend` models one `f.write_all(&chunk)`. -/

abbrev Fs := List (Str × Bytes)

def fsLookup (fs : Fs) (p : Str) : Option Bytes :=
  (fs.find? (fun e => e.1 = p)).map (fun e => e.2)

def fsSet (fs : Fs) (p : Str) (content : Bytes) : Fs := (p, content) :: fs

def fsAppend (fs : Fs) (p : Str) (b : Bytes) : Fs :=
  fsSet fs p ((fsLookup fs p).getD [] ++ b)

/-! ## Multipart payload

A part is a named chunk stream with the declared client filename, if
any.  `ChunkItem.err` is an `Err` item yielded by the field's chunk
stream; `PayloadItem.err` is an `Err` item yielded by the outer
`payload.next()` stream (a truncated or malformed multipart body). -/

inductive ChunkItem
  | ok (bytes : Bytes)
  | err
deriving DecidableEq

structure FormPart where
  name : Str
  filename : Option Str
  chunks : List ChunkItem
deriving DecidableEq

inductive PayloadItem
  | part (p : FormPart)
  | err
deriving DecidableEq

def titleName : Str := "title".toList
def bodyName : Str := "body".toList
def mediaName : Str := "media".toList

/-- Accumulate all chunks of a text field into one byte buffer
(`value.extend_from_slice(&chunk?)`); `none` when a chunk is an error,
which the handler propagates with `?`. -/
def readAll : List ChunkItem → Option Bytes
  | [] => some []
  | .ok b :: rest => (readAll rest).map (fun v => b ++ v)
  | .err :: _ => none

/-- Stream a media field's chunks to the file at `p`
(`f.write_all(&chunk?)` per chunk).  On a chunk error the handler
aborts; the error carries the filesystem with the writes already
performed. -/
def writeStream (fs : Fs) (p : Str) : List ChunkItem → Except Fs Fs
  | [] => .ok fs
  | .ok b :: rest => writeStream (fsAppend fs p b) p rest
  | .err :: _ => .error fs

/-- All-ok chunk streaming: the filesystem after writing the byte
chunks `bs` one at a time. -/
def writeOk (fs : Fs) (p : Str) : List Bytes → Fs
  | [] => fs
  | b :: rest => writeOk (fsAppend fs p b) p rest

/-! ## The submission loop -/

/-- The loop-local state of `submit_article`: the `title` and `body`
accumulators, the collected `media_paths`, and the filesystem. -/
structure LoopState where
  title : Str
  body : Str
  media_paths : List Str
  fs : Fs
deriving DecidableEq

def initState (fs : Fs) : LoopState := ⟨[], [], [], fs⟩

/-- One iteration of the `while let Some(item) = payload.next().await`
loop body for a successfully received part, following the
`title` / `body` / `media` `else if` chain.  A `media` part without a
declared filename falls through the `if let Some(filename)` and is
skipped.  An unknown field name matches no branch.  The error side
carries the filesystem at the abort point. -/
def processItem (st : LoopState) (p : FormPart) : Except Fs LoopState :=
  if p.name = titleName then
    match readAll p.chunks with
    | some bytes => .ok { st with title := decodeText bytes }
    | none => .error st.fs
  else if p.name = bodyName then
    match readAll p.chunks with
    | some bytes => .ok { st with body := decodeText bytes }
    | none => .error st.fs
  else if p.name = mediaName then
    match p.filename with
    | some filename =>
      let s := sanitize filename
      let fs1 := fsSet st.fs (filePathOf s) []
      match writeStream fs1 (filePathOf s) p.chunks with
      | .ok fs2 => .ok { st with fs := fs2, media_paths := st.media_paths ++ [publicPathOf s] }
      | .error fsE => .error fsE
    | none => .ok st
  else .ok st

/-- The whole multipart loop: parts are consumed strictly in order; the
first stream error (outer or chunk-level) aborts the request. -/
def processItems (st : LoopState) : List PayloadItem → Except Fs LoopState
  | [] => .ok st
  | .part p :: rest =>
    match processItem st p with
    | .ok st1 => processItems st1 rest
    | .error fsE => .error fsE
  | .err :: _ => .error st.fs

/-! ## Database -/

structure DbArticle where
  id : Int
  title : Str
  body : Str
  bump_time : Int
deriving DecidableEq

structure MediaRow where
  article_id : Int
  media_path : Str
deriving DecidableEq

structure CommentRow where
  article_id : Int
  comment : Str
deriving DecidableEq

/-- The database: the three tables and the next id the `articles`
sequence will generate (`RETURNING id`). -/
structure Db where
  articles : List DbArticle
  media : List MediaRow
  comments : List CommentRow
  nextId : Int
deriving DecidableEq

/-- Well-formedness: every stored row's article id is below the next
generated id. -/
def Db.wf (db : Db) : Prop :=
  (∀ a ∈ db.articles, a.id < db.nextId) ∧
  (∀ m ∈ db.media, m.article_id < db.nextId) ∧
  (∀ c ∈ db.comments, c.article_id < db.nextId)

/-- Event trace of database writes, in execution order. -/
inductive DbEvent
  | articleInsert (id : Int) (title body : Str) (bump : Int)
  | mediaInsert (articleId : Int) (path : Str)
  | commentInsert (articleId : Int) (text : Str)
  | bumpUpdate (articleId : Int) (t : Int)
deriving DecidableEq

/-- The handler's observable outcome:
`redirectToList` = `Found` with `Location: /articles`;
`redirectToArticle id` = `Found` with `Location: /articles/{id}`;
`badRequest` = `HttpResponse::BadRequest().body(msg)`;
`requestError` = an `Err(_)` propagated out of the handler with `?`. -/
inductive Resp
  | redirectToList
  | redirectToArticle (id : Int)
  | badRequest (msg : Str)
  | requestError
deriving DecidableEq

def mediaRequiredMsg : Str := "Media file is required".toList

/-- `submit_article`: run the multipart loop; reject with 400 when no
media path was collected; otherwise insert the article row with
`bump_time = now`, then one media row per collected path, in order.
Returns the response, the database, the filesystem, and the trace of
database writes. -/
def submit_article (db : Db) (fs : Fs) (items : List PayloadItem) (now : Int) :
    Resp × Db × Fs × List DbEvent :=
  match processItems (initState fs) items with
  | .error fsE => (.requestError, db, fsE, [])
  | .ok st =>
    if st.media_paths = [] then
      (.badRequest mediaRequiredMsg, db, st.fs, [])
    else
      let aid := db.nextId
      let db1 : Db :=
        { db with
            articles := db.articles ++ [⟨aid, st.title, st.body, now⟩],
            media := db.media ++ st.media_paths.map (fun p => ⟨aid, p⟩),
            nextId := db.nextId + 1 }
      (.redirectToList, db1, st.fs,
        .articleInsert aid st.title st.body now ::
          st.media_paths.map (fun p => .mediaInsert aid p))

/-- `submit_comment`: insert the comment row, then update the owning
article's `bump_time` to `now`. -/
def submit_comment (db : Db) (id : Int) (text : Str) (now : Int) :
    Resp × Db × List DbEvent :=
  let db1 : Db := { db with comments := db.comments ++ [⟨id, text⟩] }
  let db2 : Db :=
    { db1 with
        articles := db1.articles.map (fun a =>
          if a.id = id then { a with bump_time := now } else a) }
  (.redirectToArticle id, db2, [.commentInsert id text, .bumpUpdate id now])

/-! ## Queries -/

/-- `SELECT id, title, body, bump_time FROM articles ORDER BY bump_time
DESC` — the rows in descending `bump_time` order. -/
def listArticlesRows (db : Db) : List DbArticle :=
  db.articles.mergeSort (fun a b => decide (b.bump_time ≤ a.bump_time))

/-- `list_articles`: the listing page renders, per row and in row
order, only the article's id and title. -/
def list_articles (db : Db) : List (Int × Str) :=
  (listArticlesRows db).map (fun a => (a.id, a.title))

/-- `SELECT ... FROM articles WHERE id = $1` with `fetch_one`: the
first matching row. -/
def getArticle (db : Db) (id : Int) : Option DbArticle :=
  db.articles.find? (fun a => a.id = id)

/-- `SELECT comment FROM comments WHERE article_id = $1`. -/
def getComments (db : Db) (id : Int) : List Str :=
  (db.comments.filter (fun c => c.article_id = id)).map (fun c => c.comment)

/-- `SELECT media_path FROM article_media WHERE article_id = $1`. -/
def getMedia (db : Db) (id : Int) : List Str :=
  (db.media.filter (fun m => m.article_id = id)).map (fun m => m.media_path)

/-! ## Timed operation sequences (for the bump-time invariant) -/

inductive TimedOp
  | submit (items : List PayloadItem) (now : Int)
  | comment (id : Int) (text : Str) (now : Int)

def opTime : TimedOp → Int
  | .submit _ now => now
  | .comment _ _ now => now

def applyOp (s : Db × Fs) : TimedOp → Db × Fs
  | .submit items now =>
    let r := submit_article s.1 s.2 items now
    (r.2.1, r.2.2.1)
  | .comment id text now => ((submit_comment s.1 id text now).2.1, s.2)

def bumpOf (db : Db) (id : Int) : Option Int :=
  (getArticle db id).map (fun a => a.bump_time)

/-- The article's `bump_time` as observed after each operation of a
run. -/
def bumpTrace (id : Int) (s : Db × Fs) : List TimedOp → List Int
  | [] => []
  | op :: rest =>
    let s1 := applyOp s op
    ((bumpOf s1.1 id).getD 0) :: bumpTrace id s1 rest

/-- The client filenames of the accepted media parts: the parts named
`media` that declare a filename, in submission order. -/
def acceptedMedia : List PayloadItem → List Str
  | [] => []
  | .part p :: rest =>
    if p.name = mediaName then
      match p.filename with
      | some fn => fn :: acceptedMedia rest
      | none => acceptedMedia rest
    else acceptedMedia rest
  | .err :: rest => acceptedMedia rest

/-- Modelled from the spec: "open the destination for exclusive
creation/writing" — an exclusive-creation open fails when the
destination already exists (the comparison point for the actual
create-or-truncate open in the code). -/
def createExclusive (fs : Fs) (p : Str) : Option Fs :=
  if (fsLookup fs p).isSome then none else some (fsSet fs p [])

/-! ## Basic lemmas -/

theorem titleName_ne_bodyName : titleName ≠ bodyName := by decide

theorem titleName_ne_mediaName : titleName ≠ mediaName := by decide

theorem bodyName_ne_mediaName : bodyName ≠ mediaName := by decide

theorem fsLookup_fsSet (fs : Fs) (p : Str) (c : Bytes) :
    fsLookup (fsSet fs p c) p = some c := by
  simp [fsLookup, fsSet, List.find?_cons]

theorem fsLookup_fsAppend (fs : Fs) (p : Str) (v : Bytes) (b : Bytes)
    (h : fsLookup fs p = some v) :
    fsLookup (fsAppend fs p b) p = some (v ++ b) := by
  simp [fsAppend, h, fsLookup_fsSet]

theorem writeStream_map_ok (fs : Fs) (p : Str) (bs : List Bytes) :
    writeStream fs p (bs.map ChunkItem.ok) = .ok (writeOk fs p bs) := by
  induction bs generalizing fs with
  | nil => rfl
  | cons b rest ih => simp [writeStream, writeOk, ih]

theorem writeOk_append (fs : Fs) (p : Str) (bs bs' : List Bytes) :
    writeOk fs p (bs ++ bs') = writeOk (writeOk fs p bs) p bs' := by
  induction bs generalizing fs with
  | nil => rfl
  | cons b rest ih => simp [writeOk, ih]

theorem fsLookup_writeOk (fs : Fs) (p : Str) (v : Bytes) (bs : List Bytes)
    (h : fsLookup fs p = some v) :
    fsLookup (writeOk fs p bs) p = some (v ++ bs.flatten) := by
  induction bs generalizing fs v with
  | nil => simpa using h
  | cons b rest ih =>
    have h1 := fsLookup_fsAppend fs p v b h
    simpa [writeOk, List.append_assoc] using ih (fsAppend fs p b) (v ++ b) h1

/-! ## Branch lemmas for the submission loop -/

theorem processItem_title (st : LoopState) (p : FormPart) (h : p.name = titleName) :
    processItem st p =
      match readAll p.chunks with
      | some bytes => .ok { st with title := decodeText bytes }
      | none => .error st.fs := by
  simp [processItem, h]

theorem processItem_body (st : LoopState) (p : FormPart) (h : p.name = bodyName) :
    processItem st p =
      match readAll p.chunks with
      | some bytes => .ok { st with body := decodeText bytes }
      | none => .error st.fs := by
  rw [processItem, if_neg (by rw [h]; exact fun hh => titleName_ne_bodyName hh.symm), if_pos h]

theorem processItem_media_none (st : LoopState) (p : FormPart)
    (h : p.name = mediaName) (hf : p.filename = none) :
    processItem st p = .ok st := by
  rw [processItem, if_neg (by rw [h]; exact fun hh => titleName_ne_mediaName hh.symm),
    if_neg (by rw [h]; exact fun hh => bodyName_ne_mediaName hh.symm), if_pos h, hf]

theorem processItem_media_some (st : LoopState) (p : FormPart) (fn : Str)
    (h : p.name = mediaName) (hf : p.filename = some fn) :
    processItem st p =
      match writeStream (fsSet st.fs (filePathOf (sanitize fn)) [])
          (filePathOf (sanitize fn)) p.chunks with
      | .ok fs2 =>
        .ok { st with fs := fs2, media_paths := st.media_paths ++ [publicPathOf (sanitize fn)] }
      | .error fsE => .error fsE := by
  rw [processItem, if_neg (by rw [h]; exact fun hh => titleName_ne_mediaName hh.symm),
    if_neg (by rw [h]; exact fun hh => bodyName_ne_mediaName hh.symm), if_pos h, hf]

theorem processItem_other (st : LoopState) (p : FormPart)
    (h1 : p.name ≠ titleName) (h2 : p.name ≠ bodyName) (h3 : p.name ≠ mediaName) :
    processItem st p = .ok st := by
  rw [processItem, if_neg h1, if_neg h2, if_neg h3]

/-- The media paths a single accepted part contributes. -/
def acceptedOfPart (p : FormPart) : List Str :=
  if p.name = mediaName then
    match p.filename with
    | some fn => [fn]
    | none => []
  else []

theorem acceptedMedia_cons_part (p : FormPart) (rest : List PayloadItem) :
    acceptedMedia (.part p :: rest) = acceptedOfPart p ++ acceptedMedia rest := by
  by_cases h : p.name = mediaName
  · cases hf : p.filename <;> simp [acceptedMedia, acceptedOfPart, h, hf]
  · simp [acceptedMedia, acceptedOfPart, h]

theorem processItem_ok_paths (st : LoopState) (p : FormPart) (st' : LoopState)
    (h : processItem st p = .ok st') :
    st'.media_paths =
      st.media_paths ++ (acceptedOfPart p).map (fun fn => publicPathOf (sanitize fn)) := by
  by_cases h1 : p.name = titleName
  · rw [processItem_title st p h1] at h
    cases hr : readAll p.chunks with
    | some bytes =>
      rw [hr] at h
      cases h
      simp [acceptedOfPart, h1, titleName_ne_mediaName]
    | none => rw [hr] at h; cases h
  · by_cases h2 : p.name = bodyName
    · rw [processItem_body st p h2] at h
      cases hr : readAll p.chunks with
      | some bytes =>
        rw [hr] at h
        cases h
        simp [acceptedOfPart, h2, bodyName_ne_mediaName]
      | none => rw [hr] at h; cases h
    · by_cases h3 : p.name = mediaName
      · cases hf : p.filename with
        | some fn =>
          rw [processItem_media_some st p fn h3 hf] at h
          cases hw : writeStream (fsSet st.fs (filePathOf (sanitize fn)) [])
              (filePathOf (sanitize fn)) p.chunks with
          | ok fs2 =>
            rw [hw] at h
            cases h
            simp [acceptedOfPart, h3, hf]
          | error fsE => rw [hw] at h; cases h
        | none =>
          rw [processItem_media_none st p h3 hf] at h
          cases h
          simp [acceptedOfPart, h3, hf]
      · rw [processItem_other st p h1 h2 h3] at h
        cases h
        simp [acceptedOfPart, h3]

theorem processItems_ok_paths (items : List PayloadItem) (st st' : LoopState)
    (h : processItems st items = .ok st') :
    st'.media_paths =
      st.media_paths ++ (acceptedMedia items).map (fun fn => publicPathOf (sanitize fn)) := by
  induction items generalizing st with
  | nil => cases h; simp [acceptedMedia]
  | cons item rest ih =>
    cases item with
    | part p =>
      rw [processItems] at h
      cases hp : processItem st p with
      | ok st1 =>
        rw [hp] at h
        have h1 := processItem_ok_paths st p st1 hp
        rw [acceptedMedia_cons_part, ih st1 h, h1]
        simp
      | error fsE => rw [hp] at h; cases h
    | err => cases h

instance {ε α : Type _} [DecidableEq ε] [DecidableEq α] : DecidableEq (Except ε α) := fun x y =>
  match x, y with
  | .ok a, .ok b =>
    if h : a = b then isTrue (by rw [h]) else isFalse (by intro hh; cases hh; exact h rfl)
  | .error a, .error b =>
    if h : a = b then isTrue (by rw [h]) else isFalse (by intro hh; cases hh; exact h rfl)
  | .ok _, .error _ => isFalse (by intro hh; cases hh)
  | .error _, .ok _ => isFalse (by intro hh; cases hh)

theorem submit_article_reject (db : Db) (fs : Fs) (items : List PayloadItem) (now : Int)
    (st : LoopState) (hok : processItems (initState fs) items = .ok st)
    (hempty : st.media_paths = []) :
    submit_article db fs items now = (.badRequest mediaRequiredMsg, db, st.fs, []) := by
  rw [submit_article, hok]
  simp [hempty]

theorem submit_article_success (db : Db) (fs : Fs) (items : List PayloadItem) (now : Int)
    (st : LoopState) (hok : processItems (initState fs) items = .ok st)
    (hne : st.media_paths ≠ []) :
    submit_article db fs items now =
      (.redirectToList,
        { db with
            articles := db.articles ++ [⟨db.nextId, st.title, st.body, now⟩],
            media := db.media ++ st.media_paths.map (fun p => ⟨db.nextId, p⟩),
            nextId := db.nextId + 1 },
        st.fs,
        .articleInsert db.nextId st.title st.body now ::
          st.media_paths.map (fun p => .mediaInsert db.nextId p)) := by
  rw [submit_article, hok]
  simp [hne]

theorem processItems_err_mem (items : List PayloadItem) (hmem : PayloadItem.err ∈ items)
    (st : LoopState) : ∃ fsE, processItems st items = .error fsE := by
  induction items generalizing st with
  | nil => cases hmem
  | cons item rest ih =>
    cases item with
    | part p =>
      have hmem' : PayloadItem.err ∈ rest := by
        cases hmem with
        | tail _ h => exact h
      rw [processItems]
      cases hp : processItem st p with
      | ok st1 => exact ih hmem' st1
      | error fsE => exact ⟨fsE, rfl⟩
    | err => exact ⟨st.fs, rfl⟩

/-! ## Claim theorems -/

/-- Claim C1: a submission for which the multipart loop completes with
zero collected media paths is rejected with the 400 `Media file is
required` response, the database is returned unchanged, and the trace
of database writes is empty: no article row and no media row is
created. -/
theorem submit_article_no_media_rejected (db : Db) (fs : Fs) (items : List PayloadItem)
    (now : Int) (st : LoopState)
    (hok : processItems (initState fs) items = .ok st)
    (hempty : st.media_paths = []) :
    submit_article db fs items now = (.badRequest mediaRequiredMsg, db, st.fs, []) :=
  submit_article_reject db fs items now st hok hempty

def dbW : Db := ⟨[], [], [], 1⟩

def partTitleW : FormPart := ⟨titleName, none, [.ok [72, 105]]⟩

/-- Witness for C1: a concrete request carrying only a title field. -/
theorem submit_article_no_media_rejected_witness :
    processItems (initState []) [.part partTitleW] = .ok ⟨[72, 105].map Char.ofNat, [], [], []⟩ ∧
    (⟨[72, 105].map Char.ofNat, [], [], []⟩ : LoopState).media_paths = [] ∧
    submit_article dbW [] [.part partTitleW] 100 =
      (.badRequest mediaRequiredMsg, dbW, [], []) :=
  ⟨by decide, by decide,
    submit_article_no_media_rejected dbW [] [.part partTitleW] 100
      ⟨[72, 105].map Char.ofNat, [], [], []⟩ (by decide) (by decide)⟩

/-- Claim C9: a submission whose multipart stream yields an error item
(truncated body or an encoding violation) is aborted: the handler
returns the propagated error response, the database is returned
unchanged, and the trace of database writes is empty — no partial
commit, no article row, no media row. -/
theorem submit_article_malformed_aborts (db : Db) (fs : Fs) (items : List PayloadItem)
    (now : Int) (hmem : PayloadItem.err ∈ items) :
    ∃ fsE, submit_article db fs items now = (.requestError, db, fsE, []) := by
  obtain ⟨fsE, hE⟩ := processItems_err_mem items hmem (initState fs)
  refine ⟨fsE, ?_⟩
  rw [submit_article, hE]

/-- Witness for C9: a payload that is cut off after its title part. -/
theorem submit_article_malformed_aborts_witness :
    PayloadItem.err ∈ [.part partTitleW, PayloadItem.err] ∧
    ∃ fsE, submit_article dbW [] [.part partTitleW, PayloadItem.err] 100 =
      (.requestError, dbW, fsE, []) :=
  ⟨by decide,
    submit_article_malformed_aborts dbW [] [.part partTitleW, PayloadItem.err] 100 (by decide)⟩

/-- Claim C10: a `media` part that declares no client filename is
silently skipped — the loop state (filesystem included) is returned
untouched and no storage path is collected — and a completed submission
none of whose media parts declares a filename is rejected exactly like
a submission with no media at all: 400 response, database unchanged, no
database write. -/
theorem media_without_filename_skipped (st : LoopState) (p : FormPart) (db : Db) (fs : Fs)
    (items : List PayloadItem) (now : Int) (st' : LoopState)
    (hname : p.name = mediaName) (hfn : p.filename = none)
    (hok : processItems (initState fs) items = .ok st')
    (hnone : acceptedMedia items = []) :
    processItem st p = .ok st ∧
    submit_article db fs items now = (.badRequest mediaRequiredMsg, db, st'.fs, []) := by
  have hpaths := processItems_ok_paths items (initState fs) st' hok
  rw [hnone] at hpaths
  simp [initState] at hpaths
  exact ⟨processItem_media_none st p hname hfn,
    submit_article_reject db fs items now st' hok hpaths⟩

def partMediaNoFn : FormPart := ⟨mediaName, none, [.ok [9]]⟩

/-- Witness for C10: a request whose only media part lacks a filename. -/
theorem media_without_filename_skipped_witness :
    partMediaNoFn.name = mediaName ∧
    partMediaNoFn.filename = none ∧
    processItems (initState []) [.part partMediaNoFn] = .ok (initState []) ∧
    acceptedMedia [.part partMediaNoFn] = [] ∧
    (processItem (initState []) partMediaNoFn = .ok (initState []) ∧
      submit_article dbW [] [.part partMediaNoFn] 100 =
        (.badRequest mediaRequiredMsg, dbW, (initState []).fs, [])) :=
  ⟨by decide, by decide, by decide, by decide,
    media_without_filename_skipped (initState []) partMediaNoFn dbW []
      [.part partMediaNoFn] 100 (initState []) (by decide) (by decide) (by decide) (by decide)⟩

/-- Claim C8: a text field (`title` or `body`) whose accumulated bytes
are not valid UTF-8 decodes to the empty string instead of failing: the
loop iteration succeeds and stores `""` as the field's value. -/
theorem invalid_utf8_text_field_empty (st : LoopState) (p q : FormPart) (bytes bytes' : Bytes)
    (hp : p.name = titleName) (hpr : readAll p.chunks = some bytes)
    (hpd : decodeUtf8 bytes = none)
    (hq : q.name = bodyName) (hqr : readAll q.chunks = some bytes')
    (hqd : decodeUtf8 bytes' = none) :
    processItem st p = .ok { st with title := [] } ∧
    processItem st q = .ok { st with body := [] } := by
  constructor
  · rw [processItem_title st p hp, hpr]
    simp [decodeText, hpd]
  · rw [processItem_body st q hq, hqr]
    simp [decodeText, hqd]

def partTitleBad : FormPart := ⟨titleName, none, [.ok [0xFF]]⟩

def partBodyBad : FormPart := ⟨bodyName, none, [.ok [0xC0, 0xAF]]⟩

/-- Witness for C8: a title of the invalid byte `0xFF` and a body that
is an overlong encoding. -/
theorem invalid_utf8_text_field_empty_witness :
    partTitleBad.name = titleName ∧
    readAll partTitleBad.chunks = some [0xFF] ∧
    decodeUtf8 [0xFF] = none ∧
    partBodyBad.name = bodyName ∧
    readAll partBodyBad.chunks = some [0xC0, 0xAF] ∧
    decodeUtf8 [0xC0, 0xAF] = none ∧
    (processItem (initState []) partTitleBad = .ok { initState [] with title := [] } ∧
      processItem (initState []) partBodyBad = .ok { initState [] with body := [] }) :=
  ⟨by decide, by decide, by decide, by decide, by decide, by decide,
    invalid_utf8_text_field_empty (initState []) partTitleBad partBodyBad [0xFF] [0xC0, 0xAF]
      (by decide) (by decide) (by decide) (by decide) (by decide) (by decide)⟩

theorem filter_media_fresh (l : List MediaRow) (aid : Int) (paths : List Str)
    (hfresh : ∀ m ∈ l, m.article_id ≠ aid) :
    ((l ++ paths.map (fun p => (⟨aid, p⟩ : MediaRow))).filter
        (fun m => m.article_id = aid)).map (fun m => m.media_path) = paths := by
  rw [List.filter_append]
  have h1 : l.filter (fun m => m.article_id = aid) = [] := by
    rw [List.filter_eq_nil_iff]
    intro m hm
    simpa using hfresh m hm
  rw [h1, List.nil_append]
  induction paths with
  | nil => rfl
  | cons p rest ih => simpa [List.filter_cons] using ih

/-- Claim C2: when the multipart loop completes with at least one
accepted media part, the submission succeeds, the media rows stored for
the new article are exactly the sanitized public storage paths of the
accepted media parts in submission order, and in the write trace the
article insert strictly precedes every media insert (it is the head,
the media inserts follow in order). -/
theorem submit_article_media_rows (db : Db) (fs : Fs) (items : List PayloadItem)
    (now : Int) (st : LoopState)
    (hwf : db.wf)
    (hok : processItems (initState fs) items = .ok st)
    (hne : acceptedMedia items ≠ []) :
    (submit_article db fs items now).1 = .redirectToList ∧
    getMedia (submit_article db fs items now).2.1 db.nextId =
      (acceptedMedia items).map (fun fn => publicPathOf (sanitize fn)) ∧
    (submit_article db fs items now).2.2.2 =
      .articleInsert db.nextId st.title st.body now ::
        (acceptedMedia items).map
          (fun fn => .mediaInsert db.nextId (publicPathOf (sanitize fn))) := by
  have hpaths := processItems_ok_paths items (initState fs) st hok
  simp only [initState, List.nil_append] at hpaths
  have hne' : st.media_paths ≠ [] := by
    rw [hpaths]
    simpa using hne
  rw [submit_article_success db fs items now st hok hne']
  refine ⟨rfl, ?_, ?_⟩
  · have hfresh : ∀ m ∈ db.media, m.article_id ≠ db.nextId := fun m hm =>
      Int.ne_of_lt (hwf.2.1 m hm)
    simpa [getMedia, hpaths, List.map_map] using
      filter_media_fresh db.media db.nextId
        ((acceptedMedia items).map (fun fn => publicPathOf (sanitize fn))) hfresh
  · simp [hpaths, List.map_map]

theorem wf_nil_db (n : Int) : Db.wf ⟨[], [], [], n⟩ := by
  unfold Db.wf
  simp

def fnW : Str := "a.png".toList

def partMediaW : FormPart := ⟨mediaName, some fnW, [.ok [9]]⟩

def stW : LoopState :=
  ⟨[], [], [publicPathOf (sanitize fnW)],
    fsAppend (fsSet [] (filePathOf (sanitize fnW)) []) (filePathOf (sanitize fnW)) [9]⟩

/-- Witness for C2: one accepted media part named `a.png` with one
chunk. -/
theorem submit_article_media_rows_witness :
    Db.wf dbW ∧
    processItems (initState []) [.part partMediaW] = .ok stW ∧
    acceptedMedia [.part partMediaW] ≠ [] ∧
    ((submit_article dbW [] [.part partMediaW] 100).1 = .redirectToList ∧
      getMedia (submit_article dbW [] [.part partMediaW] 100).2.1 dbW.nextId =
        (acceptedMedia [.part partMediaW]).map (fun fn => publicPathOf (sanitize fn)) ∧
      (submit_article dbW [] [.part partMediaW] 100).2.2.2 =
        .articleInsert dbW.nextId stW.title stW.body 100 ::
          (acceptedMedia [.part partMediaW]).map
            (fun fn => .mediaInsert dbW.nextId (publicPathOf (sanitize fn)))) :=
  ⟨wf_nil_db 1, by decide, by decide,
    submit_article_media_rows dbW [] [.part partMediaW] 100 stW (wf_nil_db 1)
      (by decide) (by decide)⟩

theorem find?_bump_map (l : List DbArticle) (id id' : Int) (now : Int) :
    (l.map (fun a => if a.id = id' then { a with bump_time := now } else a)).find?
        (fun a => a.id = id) =
      (l.find? (fun a => a.id = id)).map
        (fun a => if a.id = id' then { a with bump_time := now } else a) := by
  have hf : ((fun a : DbArticle => decide (a.id = id)) ∘ fun a =>
      if a.id = id' then { a with bump_time := now } else a) =
      fun a : DbArticle => decide (a.id = id) := by
    funext a
    by_cases h : a.id = id' <;> simp [h]
  rw [List.find?_map, hf]

/-- Claim C4: a comment call on an existing article redirects to that
article, the comment's text appears among the article's comments, the
article's `bump_time` becomes the `now` of this call, and the write
trace is the comment insert followed by the bump update (the insert
comes first). -/
theorem submit_comment_adds_and_bumps (db : Db) (id : Int) (text : Str) (now : Int)
    (a : DbArticle) (hex : getArticle db id = some a) :
    (submit_comment db id text now).1 = .redirectToArticle id ∧
    text ∈ getComments (submit_comment db id text now).2.1 id ∧
    bumpOf (submit_comment db id text now).2.1 id = some now ∧
    (submit_comment db id text now).2.2 = [.commentInsert id text, .bumpUpdate id now] := by
  refine ⟨rfl, ?_, ?_, rfl⟩
  · simp [getComments, submit_comment, List.filter_append]
  · rw [bumpOf, getArticle, submit_comment]
    simp only
    rw [find?_bump_map]
    rw [getArticle] at hex
    have ha : a.id = id := by simpa using (List.find?_some hex)
    rw [hex]
    simp [ha]

def dbC4 : Db := ⟨[⟨1, ['t'], ['b'], 50⟩], [], [], 2⟩

/-- Witness for C4: commenting `hi` on the article with id 1. -/
theorem submit_comment_adds_and_bumps_witness :
    getArticle dbC4 1 = some ⟨1, ['t'], ['b'], 50⟩ ∧
    ((submit_comment dbC4 1 ['h', 'i'] 99).1 = .redirectToArticle 1 ∧
      ['h', 'i'] ∈ getComments (submit_comment dbC4 1 ['h', 'i'] 99).2.1 1 ∧
      bumpOf (submit_comment dbC4 1 ['h', 'i'] 99).2.1 1 = some 99 ∧
      (submit_comment dbC4 1 ['h', 'i'] 99).2.2 =
        [.commentInsert 1 ['h', 'i'], .bumpUpdate 1 99]) :=
  ⟨by decide,
    submit_comment_adds_and_bumps dbC4 1 ['h', 'i'] 99 ⟨1, ['t'], ['b'], 50⟩ (by decide)⟩

/-- Claim C5: the listing contains exactly the stored articles (a
permutation of the `articles` table), in non-increasing `bump_time`
order (most recently active first), and each listed entry carries only
the article's id and title. -/
theorem list_articles_ordered (db : Db) :
    (listArticlesRows db).Perm db.articles ∧
    List.Pairwise (fun a b => b.bump_time ≤ a.bump_time) (listArticlesRows db) ∧
    list_articles db = (listArticlesRows db).map (fun a => (a.id, a.title)) := by
  refine ⟨List.mergeSort_perm db.articles _, ?_, rfl⟩
  have h := @List.sorted_mergeSort DbArticle
      (fun a b : DbArticle => decide (b.bump_time ≤ a.bump_time))
      (fun a b c hab hbc => by
        simp only [decide_eq_true_eq] at *
        exact le_trans hbc hab)
      (fun a b => by
        simp only [Bool.or_eq_true, decide_eq_true_eq]
        exact le_total b.bump_time a.bump_time)
      db.articles
  exact h.imp (fun hxy => by simpa using hxy)

/-! ## Sanitizer confinement (C3) -/

theorem mem_truncBytes {c : Char} {n : Nat} {s : Str} (h : c ∈ truncBytes n s) : c ∈ s := by
  induction s generalizing n with
  | nil => cases h
  | cons d rest ih =>
    rw [truncBytes] at h
    by_cases hl : lenUtf8 d ≤ n
    · rw [if_pos hl] at h
      cases h with
      | head => exact List.mem_cons_self _ _
      | tail _ hm => exact List.mem_cons_of_mem _ (ih hm)
    · rw [if_neg hl] at h
      cases h

theorem mem_replaceReserved {c : Char} {s : Str} (h : c ∈ replaceReserved s) : c ∈ s := by
  unfold replaceReserved at h
  split at h
  · cases h
  · exact h

theorem slash_not_mem_sanitize (name : Str) : '/' ∉ sanitize name := by
  intro h
  have h1 := mem_replaceReserved (mem_truncBytes h)
  have h2 := (List.mem_filter.mp h1).1
  have h3 := (List.mem_filter.mp h2).2
  simp [isIllegalChar] at h3

theorem splitGo_no_slash (cur : Str) (s : Str) (h : '/' ∉ s) :
    splitGo cur s = [cur.reverse ++ s] := by
  induction s generalizing cur with
  | nil => simp [splitGo]
  | cons c rest ih =>
    have hc : c ≠ '/' := fun hh => h (by rw [hh]; exact List.mem_cons_self _ _)
    rw [splitGo, if_neg hc, ih _ (fun hm => h (List.mem_cons_of_mem _ hm))]
    simp

theorem splitGo_slash (a : Str) (t : Str) (cur : Str) (h : '/' ∉ a) :
    splitGo cur (a ++ '/' :: t) = (cur.reverse ++ a) :: splitGo [] t := by
  induction a generalizing cur with
  | nil => simp [splitGo]
  | cons c rest ih =>
    have hc : c ≠ '/' := fun hh => h (by rw [hh]; exact List.mem_cons_self _ _)
    rw [List.cons_append, splitGo, if_neg hc, ih _ (fun hm => h (List.mem_cons_of_mem _ hm))]
    simp

theorem splitOnSlash_filePath (s : Str) (h : '/' ∉ s) :
    splitOnSlash (filePathOf s) = [['.'], "uploads".toList, "article_".toList ++ s] := by
  have e : filePathOf s =
      ['.'] ++ '/' :: ("uploads".toList ++ '/' :: ("article_".toList ++ s)) := rfl
  have hs : '/' ∉ "article_".toList ++ s := by
    intro hm
    cases List.mem_append.mp hm with
    | inl hm' => exact absurd hm' (by decide)
    | inr hm' => exact h hm'
  rw [splitOnSlash, e, splitGo_slash _ _ _ (by decide), splitGo_slash _ _ _ (by decide),
    splitGo_no_slash _ _ hs]
  simp

theorem resolvePath_filePath (s : Str) :
    resolvePath [] [['.'], "uploads".toList, "article_".toList ++ s] =
      some ["uploads".toList, "article_".toList ++ s] := by
  have e2 : "article_".toList ++ s = 'a' :: ("rticle_".toList ++ s) := rfl
  have h1 : ((['.'] : Str) = [] ∨ (['.'] : Str) = ['.']) := Or.inr rfl
  have h2 : ¬("uploads".toList = [] ∨ "uploads".toList = ['.']) := by decide
  have h3 : ¬("uploads".toList = ['.', '.']) := by decide
  have h4 : ¬(('a' :: ("rticle_".toList ++ s)) = [] ∨ ('a' :: ("rticle_".toList ++ s)) = ['.']) := by
    simp
  have h5 : ¬(('a' :: ("rticle_".toList ++ s)) = ['.', '.']) := by simp
  rw [e2, resolvePath, if_pos h1, resolvePath, if_neg h2, if_neg h3, resolvePath,
    if_neg h4, if_neg h5, resolvePath]
  rfl

/-- Claim C3: for every client-supplied filename — traversal segments,
separators, control characters and the empty string included — the
storage path `./uploads/article_<sanitized>` stays confined to the
upload root: it resolves to the `uploads` directory followed by a
non-empty entry name, with no `..` escape. -/
theorem sanitize_path_confined (name : Str) :
    confinedToUploads (filePathOf (sanitize name)) = true := by
  unfold confinedToUploads
  rw [splitOnSlash_filePath _ (slash_not_mem_sanitize name), resolvePath_filePath]
  simp

/-! ## Bump-time lemmas (C6) -/

theorem bumpOf_submit (db : Db) (fs : Fs) (items : List PayloadItem) (now : Int)
    (id : Int) (b : Int) (hb : bumpOf db id = some b) :
    bumpOf (submit_article db fs items now).2.1 id = some b := by
  rw [submit_article]
  cases hpi : processItems (initState fs) items with
  | error fsE => simpa using hb
  | ok st =>
    by_cases hmp : st.media_paths = []
    · simpa [hmp] using hb
    · simp only [if_neg hmp]
      rw [bumpOf, getArticle] at hb ⊢
      simp only
      rw [List.find?_append]
      obtain ⟨a, ha, hab⟩ := Option.map_eq_some'.mp hb
      rw [ha]
      simpa using hab

theorem bumpOf_comment_self (db : Db) (id : Int) (text : Str) (now : Int) (b : Int)
    (hb : bumpOf db id = some b) :
    bumpOf (submit_comment db id text now).2.1 id = some now := by
  rw [bumpOf, getArticle, submit_comment]
  simp only
  rw [find?_bump_map]
  rw [bumpOf, getArticle] at hb
  obtain ⟨a, ha, hab⟩ := Option.map_eq_some'.mp hb
  have haid : a.id = id := by simpa using List.find?_some ha
  rw [ha]
  simp [haid]

theorem bumpOf_comment_other (db : Db) (id id' : Int) (text : Str) (now : Int) (b : Int)
    (hne : id' ≠ id) (hb : bumpOf db id = some b) :
    bumpOf (submit_comment db id' text now).2.1 id = some b := by
  rw [bumpOf, getArticle, submit_comment]
  simp only
  rw [find?_bump_map]
  rw [bumpOf, getArticle] at hb
  obtain ⟨a, ha, hab⟩ := Option.map_eq_some'.mp hb
  have haid : a.id = id := by simpa using List.find?_some ha
  rw [ha]
  have hne2 : id ≠ id' := fun hh => hne hh.symm
  simp [haid, hne2, hab]

theorem bumpOf_created (db : Db) (fs : Fs) (items : List PayloadItem) (now : Int)
    (hwf : Db.wf db)
    (hred : (submit_article db fs items now).1 = Resp.redirectToList) :
    bumpOf (submit_article db fs items now).2.1 db.nextId = some now := by
  rw [submit_article] at hred ⊢
  cases hpi : processItems (initState fs) items with
  | error fsE => rw [hpi] at hred; simp at hred
  | ok st =>
    rw [hpi] at hred
    by_cases hmp : st.media_paths = []
    · simp [hmp] at hred
    · simp only [if_neg hmp]
      rw [bumpOf, getArticle]
      simp only
      rw [List.find?_append]
      have h1 : db.articles.find? (fun a => a.id = db.nextId) = none := by
        rw [List.find?_eq_none]
        intro a ha
        simpa using Int.ne_of_lt (hwf.1 a ha)
      rw [h1]
      simp

theorem chain'_head_le {b t : Int} {ts : List Int}
    (h : b ≤ t) (hc : List.Chain' (· ≤ ·) (t :: ts)) : List.Chain' (· ≤ ·) (b :: ts) := by
  cases ts with
  | nil => simp
  | cons t2 l =>
    rw [List.chain'_cons] at hc ⊢
    exact ⟨le_trans h hc.1, hc.2⟩

theorem bumpTrace_chain (ops : List TimedOp) (s : Db × Fs) (id : Int) (b : Int)
    (hb : bumpOf s.1 id = some b)
    (hc : List.Chain' (· ≤ ·) (b :: ops.map opTime)) :
    List.Chain' (· ≤ ·) (b :: bumpTrace id s ops) := by
  induction ops generalizing s b with
  | nil => simp [bumpTrace]
  | cons op rest ih =>
    rw [List.map_cons] at hc
    have hbt : b ≤ opTime op := (List.chain'_cons.mp hc).1
    have hcr : List.Chain' (· ≤ ·) (opTime op :: rest.map opTime) := (List.chain'_cons.mp hc).2
    rw [bumpTrace]
    cases op with
    | submit items now =>
      have hb' : bumpOf (applyOp s (.submit items now)).1 id = some b :=
        bumpOf_submit s.1 s.2 items now id b hb
      rw [hb']
      rw [List.chain'_cons]
      exact ⟨le_refl b, ih (applyOp s (.submit items now)) b hb' (chain'_head_le hbt hcr)⟩
    | comment cid text now =>
      by_cases hcid : cid = id
      · subst hcid
        have hb' : bumpOf (applyOp s (.comment cid text now)).1 cid = some now :=
          bumpOf_comment_self s.1 cid text now b hb
        rw [hb']
        rw [List.chain'_cons]
        have hnow : opTime (.comment cid text now) = now := rfl
        rw [hnow] at hbt hcr
        exact ⟨hbt, ih (applyOp s (.comment cid text now)) now hb' hcr⟩
      · have hb' : bumpOf (applyOp s (.comment cid text now)).1 id = some b :=
          bumpOf_comment_other s.1 id cid text now b hcid hb
        rw [hb']
        rw [List.chain'_cons]
        exact ⟨le_refl b, ih (applyOp s (.comment cid text now)) b hb' (chain'_head_le hbt hcr)⟩

/-- Claim C6: `bump_time` is set to the submission time at creation; a
further article submission never changes an existing article's
`bump_time`, nor does a comment addressed to a different article; and
along any run of operations whose clock readings are non-decreasing,
the observed `bump_time` sequence of an article is non-decreasing. -/
theorem bump_time_monotone :
    (∀ db fs items now, Db.wf db →
        (submit_article db fs items now).1 = Resp.redirectToList →
        bumpOf (submit_article db fs items now).2.1 db.nextId = some now) ∧
    (∀ s : Db × Fs, ∀ id b items now, bumpOf s.1 id = some b →
        bumpOf (applyOp s (.submit items now)).1 id = some b) ∧
    (∀ s : Db × Fs, ∀ id b id' text now, bumpOf s.1 id = some b → id' ≠ id →
        bumpOf (applyOp s (.comment id' text now)).1 id = some b) ∧
    (∀ ops : List TimedOp, ∀ s : Db × Fs, ∀ id b, bumpOf s.1 id = some b →
        List.Chain' (· ≤ ·) (b :: ops.map opTime) →
        List.Chain' (· ≤ ·) (b :: bumpTrace id s ops)) :=
  ⟨fun db fs items now hwf hred => bumpOf_created db fs items now hwf hred,
    fun s id b items now hb => bumpOf_submit s.1 s.2 items now id b hb,
    fun s id b id' text now hb hne => bumpOf_comment_other s.1 id id' text now b hne hb,
    fun ops s id b hb hc => bumpTrace_chain ops s id b hb hc⟩

def sC6 : Db × Fs := (⟨[⟨1, ['t'], ['b'], 50⟩], [], [], 2⟩, [])

def opsC6 : List TimedOp := [.comment 1 ['x'] 60, .comment 2 ['y'] 70, .comment 1 ['z'] 80]

/-- Witness for C6: an article created at time 50, commented on at 60
and 80, with an unrelated comment at 70 in between. -/
theorem bump_time_monotone_witness :
    bumpOf sC6.1 1 = some 50 ∧
    List.Chain' (· ≤ ·) ((50 : Int) :: opsC6.map opTime) ∧
    List.Chain' (· ≤ ·) ((50 : Int) :: bumpTrace 1 sC6 opsC6) := by
  have h1 : bumpOf sC6.1 1 = some 50 := by decide
  have h2 : List.Chain' (· ≤ ·) ((50 : Int) :: opsC6.map opTime) := by
    norm_num [opsC6, opTime, List.chain'_cons]
  exact ⟨h1, h2, bump_time_monotone.2.2.2 opsC6 sC6 1 50 h1 h2⟩

/-! ## Media file opening and incremental writing (C7) -/

def pathC7 : Str := filePathOf (sanitize fnW)

def fsC7 : Fs := [(pathC7, [1, 2, 3])]

def stC7 : LoopState :=
  ⟨[], [], [publicPathOf (sanitize fnW)], fsAppend (fsSet fsC7 pathC7 []) pathC7 [9]⟩

/-- Counterexample to claim C7 as stated: with the file
`./uploads/article_a.png` already present (content `[1, 2, 3]`), an
exclusive-creation open of the destination would fail, yet the loop
iteration for the same accepted media part succeeds and leaves the file
holding the new chunk `[9]` — the destination is opened with
create-or-truncate semantics and the existing file is silently
overwritten, not exclusively created. -/
theorem file_create_not_exclusive :
    createExclusive fsC7 pathC7 = none ∧
    processItem (initState fsC7) partMediaW = .ok stC7 ∧
    fsLookup stC7.fs pathC7 = some [9] :=
  ⟨by decide, by decide, by decide⟩

/-- Claim C7 (amended): the destination file is opened with
create-or-truncate semantics — the open succeeds and resets the content
to empty even when the destination already exists — and each incoming
chunk is written as it arrives: the chunk stream is consumed
sequentially one chunk at a time, after any prefix `bs` of the chunks
the file holds exactly the bytes of `bs`, and the loop iteration for an
accepted media part performs exactly these chunk-by-chunk writes. -/
theorem media_write_create_truncate_incremental (fs : Fs) (p : Str) (bs bs' : List Bytes)
    (st : LoopState) (fn : Str) :
    fsLookup (fsSet fs p []) p = some [] ∧
    writeStream fs p ((bs ++ bs').map ChunkItem.ok) = .ok (writeOk (writeOk fs p bs) p bs') ∧
    fsLookup (writeOk (fsSet fs p []) p bs) p = some bs.flatten ∧
    processItem st ⟨mediaName, some fn, bs.map ChunkItem.ok⟩ =
      .ok { st with
              fs := writeOk (fsSet st.fs (filePathOf (sanitize fn)) [])
                (filePathOf (sanitize fn)) bs,
              media_paths := st.media_paths ++ [publicPathOf (sanitize fn)] } := by
  refine ⟨fsLookup_fsSet fs p [], ?_, ?_, ?_⟩
  · rw [writeStream_map_ok, writeOk_append]
  · simpa using fsLookup_writeOk (fsSet fs p []) p [] bs (fsLookup_fsSet fs p [])
  · rw [processItem_media_some st ⟨mediaName, some fn, bs.map ChunkItem.ok⟩ fn rfl rfl]
    rw [writeStream_map_ok]
